import Mathlib

/-!
Verification of the oort3 per-team WebAssembly ship-control runtime
(`shared/simulator/src/vm/mod.rs`) and the compiler-service source sanitizer
(`services/compiler/src/sanitizer.rs`).

Shallow embedding notes:
* Rust `f64` is modeled by the inductive `F` below: NaN, the two infinities,
  and finite values (represented by rationals).  The code under verification
  performs no floating-point arithmetic — it only stores values, tests
  `is_nan` / `is_infinite` / `is_finite`, compares against `0.0`, and casts to
  unsigned integers — so this model is exact for all of those operations.
* The `SystemState` enum of the guest ABI (crate `oort_api`, a dependency of
  the simulator) is modeled as the inductive `SysIdx`; distinct Rust enum
  variants are distinct array indices, which the inductive captures.  The
  radio slots produced by `oort_api::prelude::radio_internal::radio_indices`
  are modeled as indexed constructors, one distinct slot per radio and field.
* `HashMap<ShipHandle, ShipController>` is modeled as an association list
  with unique keys; hashmap iteration order is arbitrary, which the theorems
  account for by quantifying over permutations of the list.
-/

namespace Oort

/-- Model of Rust `f64` for code that never does float arithmetic:
NaN, ±∞ (`inf true` is `+∞`), and finite values as rationals. -/
inductive F where
  | nan : F
  | inf : Bool → F
  | fin : ℚ → F
deriving DecidableEq, Repr

/-- Rust `f64::is_nan`. -/
def F.isNan : F → Bool
  | .nan => true
  | _ => false

/-- Rust `f64::is_infinite`. -/
def F.isInfinite : F → Bool
  | .inf _ => true
  | _ => false

/-- Rust `f64::is_finite`. -/
def F.isFinite : F → Bool
  | .fin _ => true
  | _ => false

/-- The Rust comparison `v > 0.0` (false for NaN, true for `+∞`). -/
def F.gtZero : F → Bool
  | .nan => false
  | .inf b => b
  | .fin q => decide (0 < q)

/-- The Rust comparison `v != 0.0` (true for NaN, per IEEE-754). -/
def F.neZero : F → Bool
  | .nan => true
  | .inf _ => true
  | .fin q => decide (q ≠ 0)

/-- Rust `v as u32` on an `f64`: truncate toward zero, saturate to
`[0, u32::MAX]`, NaN maps to 0. -/
def F.toU32 : F → Nat
  | .nan => 0
  | .inf b => if b then 4294967295 else 0
  | .fin q => if q ≤ 0 then 0 else min q.floor.toNat 4294967295

/-- Rust `v as usize` (64-bit) on an `f64`: truncate toward zero, saturate. -/
def F.toUsize : F → Nat
  | .nan => 0
  | .inf b => if b then 18446744073709551615 else 0
  | .fin q => if q ≤ 0 then 0 else min q.floor.toNat 18446744073709551615

/-- The `oort_api::SystemState` index enumeration (the slots used by the
code under verification; distinct constructors model distinct array
indices).  Radio slots follow `radio_internal::radio_indices(i)`: one
distinct channel/send/receive slot and four data slots per radio `i`. -/
inductive SysIdx where
  | Class
  | Seed
  | PositionX | PositionY
  | VelocityX | VelocityY
  | Heading | AngularVelocity
  | AccelerateX | AccelerateY
  | Torque
  | Aim0 | Aim1 | Aim2 | Aim3
  | Fire0 | Fire1 | Fire2 | Fire3
  | Explode
  | ActivateAbility
  | RadarHeading | RadarWidth | RadarMinDistance | RadarMaxDistance
  | RadarContactFound
  | RadarContactPositionX | RadarContactPositionY
  | RadarContactVelocityX | RadarContactVelocityY
  | RadarContactClass
  | MaxForwardAcceleration | MaxBackwardAcceleration
  | MaxLateralAcceleration | MaxAngularAcceleration
  | CurrentTick
  | RadioChannel (i : Nat) | RadioSend (i : Nat) | RadioReceive (i : Nat)
  | RadioData (i : Nat) (j : Fin 4)
  | DebugTextPointer | DebugTextLength
  | DebugLinesPointer | DebugLinesLength
  | DrawnTextPointer | DrawnTextLength
deriving DecidableEq, Repr

/-- `LocalSystemState`: the host-side mirror of the guest `SystemState`
array (`[f64; SystemState::Size]`), modeled as a total function on the
index enumeration. -/
structure LocalSystemState where
  state : SysIdx → F

/-- `LocalSystemState::new()`: all slots `0.0`. -/
def LocalSystemState.new : LocalSystemState := ⟨fun _ => F.fin 0⟩

/-- `LocalSystemState::get`: reads the slot, coercing NaN and ±∞ to `0.0`. -/
def LocalSystemState.get (s : LocalSystemState) (index : SysIdx) : F :=
  let v := s.state index
  if v.isNan || v.isInfinite then F.fin 0 else v

/-- `LocalSystemState::set`: stores the value as-is. -/
def LocalSystemState.set (s : LocalSystemState) (index : SysIdx) (value : F) :
    LocalSystemState :=
  ⟨fun j => if j = index then value else s.state j⟩

/-- `oort_api::Ability`.  Discriminant values as in the `oort_api` crate
(a plain Rust enum starting at 0). -/
inductive Ability where
  | none | boost | shapedCharge | decoy | shield
deriving DecidableEq, Repr

/-- `Ability as u32`. -/
def Ability.toU32 : Ability → Nat
  | .none => 0
  | .boost => 1
  | .shapedCharge => 2
  | .decoy => 3
  | .shield => 4

/-- `translate_ability`: truncate the f64 to u32 and compare against each
ability discriminant; anything else maps to `None`. -/
def translate_ability (v : F) : Option Ability :=
  let v := v.toU32
  if v = Ability.toU32 .none then some .none
  else if v = Ability.toU32 .boost then some .boost
  else if v = Ability.toU32 .shapedCharge then some .shapedCharge
  else if v = Ability.toU32 .decoy then some .decoy
  else if v = Ability.toU32 .shield then some .shield
  else none

/-- One call made by `apply_system_state` on the `Simulation` mutators,
recorded with its arguments. -/
inductive SimCmd where
  | accelerate (x y : F)
  | torque (v : F)
  | aim (gun : Nat) (angle : F)
  | fire (gun : Nat)
  | radarSetHeading (v : F)
  | radarSetWidth (v : F)
  | radarSetMinDistance (v : F)
  | radarSetMaxDistance (v : F)
  | activateAbility (a : Ability)
  | explodeCmd
  | radioSetChannel (i : Nat) (channel : Nat)
  | radioSetSent (i : Nat) (d0 d1 d2 d3 : F)
deriving DecidableEq, Repr

/-- The aim/fire slot table of `apply_system_state`
(`[(Aim0, Fire0), ..., (Aim3, Fire3)].iter().enumerate()`). -/
def fireGroups : List (Nat × SysIdx × SysIdx) :=
  [(0, .Aim0, .Fire0), (1, .Aim1, .Fire1), (2, .Aim2, .Fire2), (3, .Aim3, .Fire3)]

/-- The aim/fire loop of `apply_system_state`: for each group, if the fire
slot reads `> 0.0`, aim then fire then zero the slot. -/
def applyFires : List (Nat × SysIdx × SysIdx) → LocalSystemState →
    LocalSystemState × List SimCmd
  | [], s => (s, [])
  | (i, aimIdx, fireIdx) :: rest, s =>
    if (s.get fireIdx).gtZero then
      let s2 := s.set fireIdx (F.fin 0)
      let r := applyFires rest s2
      (r.1, SimCmd.aim i (s.get aimIdx) :: SimCmd.fire i :: r.2)
    else applyFires rest s

/-- The radio loop of `apply_system_state`: set the channel from the slot;
if the send slot reads `!= 0.0`, publish the four data slots.  The local
state is not modified. -/
def applyRadios : List Nat → LocalSystemState → LocalSystemState × List SimCmd
  | [], s => (s, [])
  | i :: rest, s =>
    let r := applyRadios rest s
    (r.1,
      SimCmd.radioSetChannel i (s.get (.RadioChannel i)).toUsize ::
        ((if (s.get (.RadioSend i)).neZero then
            [SimCmd.radioSetSent i (s.get (.RadioData i 0)) (s.get (.RadioData i 1))
              (s.get (.RadioData i 2)) (s.get (.RadioData i 3))]
          else []) ++ r.2))

/-- The radar block of `apply_system_state`: when the ship has a radar,
copy the four radar slots to the radar setters. -/
def radarCmds (hasRadar : Bool) (s : LocalSystemState) : List SimCmd :=
  if hasRadar then
    [SimCmd.radarSetHeading (s.get .RadarHeading),
     SimCmd.radarSetWidth (s.get .RadarWidth),
     SimCmd.radarSetMinDistance (s.get .RadarMinDistance),
     SimCmd.radarSetMaxDistance (s.get .RadarMaxDistance)]
  else []

/-- The ability block of `apply_system_state`: translate the
`ActivateAbility` slot; activate it when it maps to a non-`None`
ability. -/
def abilityCmds (s : LocalSystemState) : List SimCmd :=
  match translate_ability (s.get .ActivateAbility) with
  | some a => if a ≠ Ability.none then [SimCmd.activateAbility a] else []
  | Option.none => []

/-- The explode block of `apply_system_state`: if the `Explode` slot reads
`> 0.0`, explode the ship and zero the slot. -/
def explodeStep (s : LocalSystemState) : LocalSystemState × List SimCmd :=
  if (s.get .Explode).gtZero then (s.set .Explode (F.fin 0), [SimCmd.explodeCmd])
  else (s, [])

/-- `apply_system_state` (vm/mod.rs:439-503): translate the inbound local
state into simulation mutator calls, zeroing the applied command slots.
`hasRadar` models `sim.ship_mut(handle).data_mut().radar.is_some()` and
`numRadios` the length of `data().radios`.  Returns the updated local
state and the ordered trace of mutator calls. -/
def apply_system_state (hasRadar : Bool) (numRadios : Nat) (s0 : LocalSystemState) :
    LocalSystemState × List SimCmd :=
  let accCmd := SimCmd.accelerate (s0.get .AccelerateX) (s0.get .AccelerateY)
  let s1 := (s0.set .AccelerateX (F.fin 0)).set .AccelerateY (F.fin 0)
  let torqueCmd := SimCmd.torque (s1.get .Torque)
  let s2 := s1.set .Torque (F.fin 0)
  let fr := applyFires fireGroups s2
  let ex := explodeStep fr.1
  let rd := applyRadios (List.range numRadios) ex.1
  (rd.1,
    accCmd :: torqueCmd ::
      (fr.2 ++ radarCmds hasRadar fr.1 ++ abilityCmds fr.1 ++ ex.2 ++ rd.2))

/-!
## Sanitizer (`services/compiler/src/sanitizer.rs`)

The two regexes of `check` are embedded as decision procedures over
`List Char`.  `\b` (a word boundary) and `\w` are modeled with the ASCII
word characters `[0-9A-Za-z_]`; the universal theorems about the sanitizer
therefore carry an all-ASCII hypothesis on the input text (the Rust regex
crate uses Unicode-aware `\b` by default, which agrees with the ASCII
classes on ASCII text).
-/

/-- ASCII word character, the `\w` class relevant to `\b`. -/
def isWordChar (c : Char) : Bool := c.isAlphanum || c = '_'

/-- The single-quote character (ASCII 39). -/
def squote : Char := Char.ofNat 39

/-- The literal word `w` occurs at position `i` of `cs`. -/
def strAt (cs : List Char) (i : Nat) (w : List Char) : Bool :=
  decide ((cs.drop i).take w.length = w)

/-- The character at position `i`, if any, is a word character. -/
def wordCharAt (cs : List Char) (i : Nat) : Bool :=
  match cs[i]? with
  | some c => isWordChar c
  | none => false

/-- `\b` on the right edge of a word ending just before position `i`:
position `i` is past the end or holds a non-word character. -/
def noWordAt (cs : List Char) (i : Nat) : Bool := !(wordCharAt cs i)

/-- `\b` on the left edge of a word starting at position `i`. -/
def startBoundary (cs : List Char) (i : Nat) : Bool :=
  decide (i = 0) || noWordAt cs (i - 1)

/-- A match of the first sanitizer regex
`\b(unsafe|extern|crate)\b|\b(macro_rules|include|include_bytes|include_str)(\b|!)|([^']static\b|^static\b)`
starting at position `i`. -/
def badTokenAt (cs : List Char) (i : Nat) : Bool :=
  (["unsafe", "extern", "crate"].any fun w =>
      strAt cs i w.toList && startBoundary cs i && noWordAt cs (i + w.length))
  || (["macro_rules", "include", "include_bytes", "include_str"].any fun w =>
      strAt cs i w.toList && startBoundary cs i &&
        (noWordAt cs (i + w.length) || decide (cs[i + w.length]? = some '!')))
  || ((cs[i]?).isSome && decide (cs[i]? ≠ some squote) &&
        strAt cs (i + 1) "static".toList && noWordAt cs (i + 7))
  || (decide (i = 0) && strAt cs 0 "static".toList && noWordAt cs 6)

/-- `RE.find(text).is_some()` for the first sanitizer regex. -/
def hasBadToken (cs : List Char) : Bool :=
  (List.range (cs.length + 1)).any (badTokenAt cs)

/-- A character the attribute capture `[^\[\] ]*` does not consume. -/
def notAttrStop (c : Char) : Bool := !(c = '[' || c = ']' || c = ' ')

/-- The scanning loop of `ATTR_RE.captures_iter`, with a fuel argument
(structural recursion so the scan is kernel-computable; each step
consumes at least one character, so `fuel = cs.length` never runs out). -/
def attrScanGo : Nat → List Char → List (List Char × List Char)
  | 0, _ => []
  | _ + 1, [] => []
  | fuel + 1, '#' :: '!' :: '[' :: rest =>
    let cap := rest.takeWhile notAttrStop
    ('#' :: '!' :: '[' :: cap, cap) :: attrScanGo fuel (rest.drop cap.length)
  | fuel + 1, '#' :: '[' :: rest =>
    let cap := rest.takeWhile notAttrStop
    ('#' :: '[' :: cap, cap) :: attrScanGo fuel (rest.drop cap.length)
  | fuel + 1, _ :: rest => attrScanGo fuel rest

/-- `ATTR_RE.captures_iter(text)` for `#!?\[([^\[\] ]*)`: the list of
(whole match `m[0]`, capture `m[1]`) pairs, scanning left to right and
resuming after each match. -/
def attrScan (cs : List Char) : List (List Char × List Char) :=
  attrScanGo cs.length cs

/-- A match of `ALLOWED_RE`
(`derive|repr|inline|cfg\(test\)|test|must_use|default\b`) at position `i`. -/
def allowedAt (cs : List Char) (i : Nat) : Bool :=
  strAt cs i "derive".toList || strAt cs i "repr".toList ||
  strAt cs i "inline".toList || strAt cs i "cfg(test)".toList ||
  strAt cs i "test".toList || strAt cs i "must_use".toList ||
  (strAt cs i "default".toList && noWordAt cs (i + 7))

/-- `ALLOWED_RE.is_match(capture)`: the allow-regex matches somewhere in
the capture (an unanchored substring search). -/
def allowedSomewhere (cs : List Char) : Bool :=
  (List.range (cs.length + 1)).any (allowedAt cs)

/-- Sanitizer rejection, as data: which of the two regexes rejected, and
for the attribute filter the whole matched fragment `m[0]` that the error
message names. -/
inductive CheckError where
  | badToken
  | badAttr (matched : List Char)
deriving DecidableEq, Repr

/-- The first attribute whose capture the allow-regex does not match,
returning its `m[0]` fragment. -/
def firstBadAttr (cs : List Char) : Option (List Char) :=
  (attrScan cs).findSome? fun p => if allowedSomewhere p.2 then none else some p.1

/-- `sanitizer::check`: reject on the token regex, then reject the first
attribute whose capture the allow-regex misses, else accept. -/
def check (cs : List Char) : Except CheckError Unit :=
  if hasBadToken cs then .error .badToken
  else
    match firstBadAttr cs with
    | some m0 => .error (.badAttr m0)
    | none => .ok ()

/-- Every character of the text is ASCII (where the embedding's `\b` is
exact). -/
def allAscii (cs : List Char) : Bool := cs.all fun c => decide (c.toNat < 128)

/-- The claim C6 reading of an attribute's "first token": the capture's
text up to the first whitespace or bracket (written from the
specification's words, for comparison with the code's behavior). -/
def specFirstToken (cap : List Char) : List Char :=
  cap.takeWhile fun c => !(c.isWhitespace || c = '[' || c = ']')

/-- The allow-list of attribute head tokens named by the spec. -/
def allowedTokens : List (List Char) :=
  ["derive", "repr", "inline", "cfg(test)", "test", "must_use", "default"].map
    String.toList

/-- All `f64` arguments of a mutator call are finite. -/
def SimCmd.finiteArgs : SimCmd → Bool
  | .accelerate x y => x.isFinite && y.isFinite
  | .torque v => v.isFinite
  | .aim _ a => a.isFinite
  | .fire _ => true
  | .radarSetHeading v => v.isFinite
  | .radarSetWidth v => v.isFinite
  | .radarSetMinDistance v => v.isFinite
  | .radarSetMaxDistance v => v.isFinite
  | .activateAbility _ => true
  | .explodeCmd => true
  | .radioSetChannel _ _ => true
  | .radioSetSent _ d0 d1 d2 d3 =>
      d0.isFinite && d1.isFinite && d2.isFinite && d3.isFinite

/-- A mutator call that cannot be a duplicate command: not a fire, aim or
explode, and any accelerate or torque carries a `0.0` argument. -/
def SimCmd.dupFree : SimCmd → Bool
  | .fire _ => false
  | .aim _ _ => false
  | .explodeCmd => false
  | .accelerate x y => decide (x = F.fin 0) && decide (y = F.fin 0)
  | .torque v => decide (v = F.fin 0)
  | _ => true

/-!
## Debug line validation (`validate_floats` / `validate_lines`) and the
debug-lines block of `ShipController::tick` (vm/mod.rs:267-287).
-/

/-- `oort_api::Line`: four coordinates and a color. -/
structure Line where
  x0 : F
  y0 : F
  x1 : F
  y1 : F
  color : Nat
deriving DecidableEq, Repr

/-- `validate_floats`: all values finite. -/
def validate_floats (vs : List F) : Bool := vs.all fun v => v.isFinite

/-- `validate_lines`: every coordinate of every line finite. -/
def validate_lines (lines : List Line) : Bool :=
  lines.all fun l => validate_floats [l.x0, l.y0, l.x1, l.y1]

/-- The debug-lines block of `ShipController::tick`: if the
`DebugLinesLength` slot reads `> 0.0`, cast pointer and length to u32; if
the length is at most 128, read that many `Line` structs from guest memory
(`read_vec`, modeled by the parameter `readVec`; `none` is a failed read);
if every coordinate is finite, emit the batch.  The result is the emitted
batch, `none` when nothing is emitted. -/
def debugLinesEmission (readVec : Nat → Nat → Option (List Line))
    (state : LocalSystemState) : Option (List Line) :=
  if (state.get .DebugLinesLength).gtZero then
    if (state.get .DebugLinesLength).toU32 ≤ 128 then
      match readVec (state.get .DebugLinesPointer).toU32
          (state.get .DebugLinesLength).toU32 with
      | some lines => if validate_lines lines then some lines else none
      | none => none
    else none
  else none

/-!
## TeamController (`vm/mod.rs:97-146`)

`ShipHandle` wraps a generational-arena `Index`, an (index, generation)
pair; `sort_by_key(|x| x.0)` sorts by that pair's derived order
(lexicographic).  `HashMap<ShipHandle, ShipController>` is an association
list with unique keys whose order models the hashmap's arbitrary
iteration order.  The outcome of one `ShipController::tick` (a guest call
under the wasm engine) is abstracted by the parameter
`fails : ShipHandle → Bool`; the recorded events are the
`ShipController::tick` invocation (with the raw index passed to
`export_tick_ship`), the `log::warn` call, and the
`sim.ship_mut(handle).explode()` call. -/

/-- `ShipHandle`: an (index, generation) pair. -/
structure ShipHandle where
  index : Nat
  gen : Nat
deriving DecidableEq, Repr

/-- The derived order on handles (`sort_by_key(|x| x.0)`): lexicographic
on (index, generation). -/
def handleLE (a b : ShipHandle) : Prop :=
  a.index < b.index ∨ (a.index = b.index ∧ a.gen ≤ b.gen)

instance : DecidableRel handleLE := fun a b => by
  unfold handleLE; exact inferInstance

instance : IsTotal ShipHandle handleLE :=
  ⟨by intro a b; unfold handleLE; omega⟩

instance : IsTrans ShipHandle handleLE :=
  ⟨by intro a b c; unfold handleLE; omega⟩

instance : IsAntisymm ShipHandle handleLE :=
  ⟨by
    intro a b h1 h2
    unfold handleLE at h1 h2
    cases a; cases b
    simp only [ShipHandle.mk.injEq]
    simp only at h1 h2
    omega⟩

/-- `ShipController`: the per-ship handle and local system state (the
shared `WasmVm` handle is abstracted away, see `teamTick`). -/
structure ShipController where
  handle : ShipHandle
  state : LocalSystemState

/-- The team's ship map: an association list with unique keys. -/
def ShipMap := List (ShipHandle × ShipController)

/-- `HashMap::get`. -/
def lookupShip (h : ShipHandle) : List (ShipHandle × ShipController) →
    Option ShipController
  | [] => none
  | (k, v) :: rest => if k = h then some v else lookupShip h rest

/-- Observable events of one `TeamController::tick`. -/
inductive TeamEvent where
  | ctrlTick (index : Nat)
  | logWarn
  | explodeShip (index : Nat)
deriving DecidableEq, Repr

/-- The per-handle body of the `TeamController::tick` loop: look the
controller up (`get_mut(&handle).unwrap()`; the key always comes from the
map so the lookup succeeds), invoke `ShipController::tick`, and on error
log a warning and explode the ship. -/
def tickOne (fails : ShipHandle → Bool)
    (ships : List (ShipHandle × ShipController)) (h : ShipHandle) :
    List TeamEvent :=
  match lookupShip h ships with
  | some _ =>
    TeamEvent.ctrlTick h.index ::
      (if fails h then [TeamEvent.logWarn, TeamEvent.explodeShip h.index] else [])
  | none => []

/-- `TeamController::tick` (vm/mod.rs:134-145): collect the keys, sort by
the handle's derived order, then run each ship, recovering from per-ship
errors by logging and exploding. -/
def teamTick (fails : ShipHandle → Bool)
    (ships : List (ShipHandle × ShipController)) : List TeamEvent :=
  ((ships.map Prod.fst).insertionSort handleLE).flatMap (tickOne fails ships)

/-- The guest-call sequence of a tick trace: the raw indices passed to the
ship controllers, in order. -/
def guestCalls (events : List TeamEvent) : List Nat :=
  events.filterMap fun e =>
    match e with
    | .ctrlTick i => some i
    | _ => none

/-- `TeamController::remove_ship`: drop the controller for the handle. -/
def remove_ship (ships : List (ShipHandle × ShipController)) (h : ShipHandle) :
    List (ShipHandle × ShipController) :=
  ships.filter fun p => p.1 ≠ h

/-- Modelled from the spec: the physics `Simulation` is outside this
repository's core ("deliberately out of scope"), and per the spec a ship
exploded by a failing tick is destroyed and leaves the controller map
before the next tick ("a trap or validation failure in the tick
transitions the ship to exploded in the simulation and (logically) out of
the controller map"); the harness realizes this by calling
`TeamController::remove_ship` for the destroyed ship. -/
def simDestroyExploded (ships : List (ShipHandle × ShipController))
    (h : ShipHandle) : List (ShipHandle × ShipController) :=
  remove_ship ships h

/-- Radar configuration read by `add_ship` from
`sim.ship(handle).data().radar` (fields `heading`, `width`,
`min_distance`, `max_distance`). -/
structure RadarInit where
  heading : F
  width : F
  min_distance : F
  max_distance : F

/-- The `Error` struct of vm/mod.rs. -/
structure VmError where
  msg : String

/-- `HashMap::insert`: replace the value if the key is present, else
append a new entry. -/
def insertShip (h : ShipHandle) (c : ShipController)
    (ships : List (ShipHandle × ShipController)) :
    List (ShipHandle × ShipController) :=
  if (lookupShip h ships).isSome then
    ships.map fun p => if p.1 = h then (h, c) else p
  else ships ++ [(h, c)]

/-- The fresh local state built by `TeamController::add_ship`: all zeros
except the `Seed` slot (the low 24 bits of `make_seed(sim.seed(),
handle)`, whose hash over the std `DefaultHasher` is abstracted by the
parameter `hash`) and, when the ship has a radar, the four initial radar
slots. -/
def freshShipState (hash : Nat → ShipHandle → Nat) (simSeed : Nat)
    (radar : Option RadarInit) (handle : ShipHandle) : LocalSystemState :=
  let st1 :=
    LocalSystemState.new.set .Seed (F.fin (((hash simSeed handle) &&& 0xffffff : Nat) : ℚ))
  match radar with
  | some r =>
    (((st1.set .RadarHeading r.heading).set .RadarWidth r.width).set
        .RadarMinDistance r.min_distance).set .RadarMaxDistance r.max_distance
  | none => st1

/-- `TeamController::add_ship` (vm/mod.rs:105-128): build a fresh
controller, insert it into the map (replacing any existing entry for the
handle), and return `Ok(())`. -/
def add_ship (hash : Nat → ShipHandle → Nat) (simSeed : Nat)
    (radar : Option RadarInit) (ships : List (ShipHandle × ShipController))
    (handle : ShipHandle) :
    List (ShipHandle × ShipController) × Except VmError Unit :=
  (insertShip handle ⟨handle, freshShipState hash simSeed radar handle⟩ ships, .ok ())

/-!
## SystemState marshalling (`ShipController::read_system_state` /
`write_system_state`, vm/mod.rs:190-212)

Both functions build a slice of `SystemState::Size` doubles at the
`SYSTEM_STATE` pointer and call `.expect(...)` on the result: a failed
slice (pointer plus `8 * Size` bytes falling outside guest linear memory)
aborts the process instead of returning an error value.  `WasmVm::create`
reads the `SYSTEM_STATE` global without validating it, so any i32 value
of the global reaches these functions. -/

/-- Outcome of a marshalling call.  `err` is the outcome the spec
describes (an error value surfaced to the caller); the code never
produces it. -/
inductive MarshalOutcome where
  | ok
  | err (msg : String)
  | panicked
deriving DecidableEq, Repr

/-- `WasmPtr::slice(&view, Size)` succeeds exactly when the slice lies
within guest linear memory. -/
def sliceWithin (memBytes ptr slots : Nat) : Bool :=
  decide (ptr + 8 * slots ≤ memBytes)

/-- `ShipController::read_system_state`: `slice(...).expect(...)` then
`read_slice(...).expect(...)` — success, or a panic. -/
def read_system_state (memBytes ptr slots : Nat) : MarshalOutcome :=
  if sliceWithin memBytes ptr slots then .ok else .panicked

/-- `ShipController::write_system_state`: `slice(...).expect(...)` then
`write_slice(...).expect(...)` — success, or a panic. -/
def write_system_state (memBytes ptr slots : Nat) : MarshalOutcome :=
  if sliceWithin memBytes ptr slots then .ok else .panicked

/-!
## Helper lemmas
-/

theorem state_set (s : LocalSystemState) (i : SysIdx) (v : F) (j : SysIdx) :
    (s.set i v).state j = if j = i then v else s.state j := rfl

theorem get_congr (s t : LocalSystemState) (j : SysIdx)
    (h : s.state j = t.state j) : s.get j = t.get j := by
  unfold LocalSystemState.get
  rw [h]

theorem get_finite (s : LocalSystemState) (i : SysIdx) :
    (s.get i).isFinite = true := by
  unfold LocalSystemState.get
  cases h : s.state i <;> simp [h, F.isNan, F.isInfinite, F.isFinite]

theorem get_of_state_zero (s : LocalSystemState) (j : SysIdx)
    (h : s.state j = F.fin 0) : s.get j = F.fin 0 := by
  unfold LocalSystemState.get
  rw [h]
  rfl

theorem applyFires_state_cases (groups : List (Nat × SysIdx × SysIdx)) :
    ∀ (s : LocalSystemState) (j : SysIdx),
      (applyFires groups s).1.state j = s.state j ∨
        (applyFires groups s).1.state j = F.fin 0 := by
  induction groups with
  | nil => intro s j; left; rfl
  | cons g rest ih =>
    intro s j
    obtain ⟨i, aimIdx, fireIdx⟩ := g
    unfold applyFires
    by_cases hb : (s.get fireIdx).gtZero = true
    · simp only [hb, if_true]
      rcases ih (s.set fireIdx (F.fin 0)) j with h | h
      · rw [h, state_set]
        by_cases hj : j = fireIdx
        · right; simp [hj]
        · left; simp [hj]
      · right; exact h
    · simp only [Bool.not_eq_true] at hb
      simp only [hb, Bool.false_eq_true, if_false]
      exact ih s j

theorem applyFires_cmds_finite (groups : List (Nat × SysIdx × SysIdx)) :
    ∀ (s : LocalSystemState) (c : SimCmd),
      c ∈ (applyFires groups s).2 → c.finiteArgs = true := by
  induction groups with
  | nil => intro s c hc; simp [applyFires] at hc
  | cons g rest ih =>
    intro s c hc
    obtain ⟨i, aimIdx, fireIdx⟩ := g
    unfold applyFires at hc
    by_cases hb : (s.get fireIdx).gtZero = true
    · simp only [hb, if_true, List.mem_cons] at hc
      rcases hc with rfl | hc
      · simp [SimCmd.finiteArgs, get_finite]
      · rcases hc with rfl | hc
        · rfl
        · exact ih _ c hc
    · simp only [Bool.not_eq_true] at hb
      simp only [hb, Bool.false_eq_true, if_false] at hc
      exact ih s c hc

theorem applyFires_fire_not_pos (groups : List (Nat × SysIdx × SysIdx)) :
    ∀ (s : LocalSystemState) (j : SysIdx),
      j ∈ groups.map (fun g => g.2.2) →
        ((applyFires groups s).1.get j).gtZero = false := by
  induction groups with
  | nil => intro s j hj; simp at hj
  | cons g rest ih =>
    intro s j hj
    obtain ⟨i, aimIdx, fireIdx⟩ := g
    simp only [List.map_cons, List.mem_cons] at hj
    unfold applyFires
    by_cases hb : (s.get fireIdx).gtZero = true
    · simp only [hb, if_true]
      rcases hj with rfl | hj
      · rcases applyFires_state_cases rest (s.set j (F.fin 0)) j with h | h
        · rw [get_of_state_zero _ _ (by rw [h, state_set]; simp)]
          rfl
        · rw [get_of_state_zero _ _ h]; rfl
      · exact ih _ j hj
    · simp only [Bool.not_eq_true] at hb
      simp only [hb, Bool.false_eq_true, if_false]
      rcases hj with rfl | hj
      · rcases applyFires_state_cases rest s j with h | h
        · rw [get_congr _ s _ h]; exact hb
        · rw [get_of_state_zero _ _ h]; rfl
      · exact ih s j hj

theorem applyFires_nil_of_not_pos (groups : List (Nat × SysIdx × SysIdx)) :
    ∀ (s : LocalSystemState),
      (∀ g ∈ groups, ((s.get g.2.2).gtZero = false)) →
        applyFires groups s = (s, []) := by
  induction groups with
  | nil => intro s _; rfl
  | cons g rest ih =>
    intro s hall
    obtain ⟨i, aimIdx, fireIdx⟩ := g
    unfold applyFires
    have h0 : (s.get fireIdx).gtZero = false := hall (i, aimIdx, fireIdx) (by simp)
    simp only [h0, Bool.false_eq_true, if_false]
    exact ih s fun g hg => hall g (List.mem_cons_of_mem _ hg)

theorem applyRadios_state (l : List Nat) :
    ∀ (s : LocalSystemState), (applyRadios l s).1 = s := by
  induction l with
  | nil => intro s; rfl
  | cons i rest ih => intro s; unfold applyRadios; exact ih s

theorem applyRadios_cmds (l : List Nat) :
    ∀ (s : LocalSystemState) (c : SimCmd),
      c ∈ (applyRadios l s).2 → c.finiteArgs = true ∧ c.dupFree = true := by
  induction l with
  | nil => intro s c hc; simp [applyRadios] at hc
  | cons i rest ih =>
    intro s c hc
    unfold applyRadios at hc
    simp only [List.mem_cons, List.mem_append] at hc
    rcases hc with rfl | hc
    · exact ⟨rfl, rfl⟩
    rcases hc with hc | hc
    · by_cases hb : (s.get (.RadioSend i)).neZero = true
      · simp only [hb, if_true, List.mem_singleton] at hc
        subst hc
        constructor
        · simp [SimCmd.finiteArgs, get_finite]
        · rfl
      · simp only [Bool.not_eq_true] at hb
        simp [hb] at hc
    · exact ih s c hc

theorem radarCmds_ok (hasRadar : Bool) (s : LocalSystemState) (c : SimCmd)
    (hc : c ∈ radarCmds hasRadar s) : c.finiteArgs = true ∧ c.dupFree = true := by
  unfold radarCmds at hc
  cases hasRadar
  · simp at hc
  · simp only [if_true, List.mem_cons, List.not_mem_nil, or_false] at hc
    rcases hc with rfl | rfl | rfl | rfl <;>
      exact ⟨by simp [SimCmd.finiteArgs, get_finite], rfl⟩

theorem abilityCmds_ok (s : LocalSystemState) (c : SimCmd)
    (hc : c ∈ abilityCmds s) : c.finiteArgs = true ∧ c.dupFree = true := by
  unfold abilityCmds at hc
  rcases h : translate_ability (s.get .ActivateAbility) with _ | a
  · simp [h] at hc
  · rw [h] at hc
    by_cases ha : a = Ability.none
    · simp [ha] at hc
    · simp only [ha, ne_eq, not_false_eq_true, if_true, List.mem_singleton] at hc
      subst hc
      exact ⟨rfl, rfl⟩

theorem explodeStep_cmds_finite (s : LocalSystemState) (c : SimCmd)
    (hc : c ∈ (explodeStep s).2) : c.finiteArgs = true := by
  unfold explodeStep at hc
  by_cases hb : (s.get .Explode).gtZero = true
  · simp only [hb, if_true, List.mem_singleton] at hc
    subst hc; rfl
  · simp only [Bool.not_eq_true] at hb
    simp [hb] at hc

theorem explodeStep_state_cases (s : LocalSystemState) (j : SysIdx) :
    (explodeStep s).1.state j = s.state j ∨ (explodeStep s).1.state j = F.fin 0 := by
  unfold explodeStep
  by_cases hb : (s.get .Explode).gtZero = true
  · simp only [hb, if_true]
    rw [state_set]
    by_cases hj : j = SysIdx.Explode
    · right; simp [hj]
    · left; simp [hj]
  · simp only [Bool.not_eq_true] at hb
    simp only [hb, Bool.false_eq_true, if_false]
    exact Or.inl trivial

theorem explodeStep_not_pos (s : LocalSystemState) :
    (((explodeStep s).1.get .Explode)).gtZero = false := by
  unfold explodeStep
  by_cases hb : (s.get .Explode).gtZero = true
  · simp only [hb, if_true]
    rw [get_of_state_zero _ _ (by rw [state_set]; simp)]
    rfl
  · simp only [Bool.not_eq_true] at hb
    simp [hb]

/-!
## Claims C1 and C2
-/

/-- C1: after `LocalSystemState::set(i, v)`, `get(i)` returns `0.0` when
`v` is NaN or ±∞ and `v` otherwise; consequently `apply_system_state`
never passes a non-finite argument to any simulation mutator, because
every value it forwards is read through `get`. -/
theorem c1_state_get_sanitizes :
    ∀ (s : LocalSystemState) (i : SysIdx) (v : F) (hasRadar : Bool) (numRadios : Nat),
      ((s.set i v).get i = if v.isFinite then v else F.fin 0)
      ∧ ∀ c ∈ (apply_system_state hasRadar numRadios s).2, c.finiteArgs = true := by
  intro s i v hasRadar numRadios
  constructor
  · unfold LocalSystemState.get
    rw [state_set]
    simp only [if_pos rfl]
    cases v <;> simp [F.isNan, F.isInfinite, F.isFinite]
  · intro c hc
    unfold apply_system_state at hc
    simp only [List.mem_cons, List.mem_append] at hc
    rcases hc with rfl | rfl | ((((hc | hc) | hc) | hc) | hc)
    · simp [SimCmd.finiteArgs, get_finite]
    · simp [SimCmd.finiteArgs, get_finite]
    · exact applyFires_cmds_finite _ _ c hc
    · exact (radarCmds_ok _ _ c hc).1
    · exact (abilityCmds_ok _ c hc).1
    · exact explodeStep_cmds_finite _ c hc
    · exact (applyRadios_cmds _ _ c hc).1

/-- Witness for C1 at a concrete state (all slots `1.0`), slot `Torque`
set to NaN, and the concrete accelerate command of the trace. -/
theorem c1_witness :
    (((⟨fun _ => F.fin 1⟩ : LocalSystemState).set SysIdx.Torque F.nan).get SysIdx.Torque
        = if F.nan.isFinite then F.nan else F.fin 0)
      ∧ (SimCmd.accelerate (F.fin 1) (F.fin 1)).finiteArgs = true := by
  have h := c1_state_get_sanitizes ⟨fun _ => F.fin 1⟩ SysIdx.Torque F.nan true 1
  exact ⟨h.1, h.2 _ (by decide)⟩

theorem explodeStep_of_not_pos (s : LocalSystemState)
    (h : (s.get .Explode).gtZero = false) : explodeStep s = (s, []) := by
  unfold explodeStep
  simp [h]

theorem apply_state_eq (hR : Bool) (nR : Nat) (s : LocalSystemState) :
    (apply_system_state hR nR s).1 =
      (explodeStep (applyFires fireGroups
        (((s.set .AccelerateX (F.fin 0)).set .AccelerateY (F.fin 0)).set
          .Torque (F.fin 0))).1).1 := by
  simp only [apply_system_state]
  exact applyRadios_state _ _

theorem post_apply_state (hR : Bool) (nR : Nat) (s : LocalSystemState) :
    ((apply_system_state hR nR s).1.get .AccelerateX = F.fin 0)
    ∧ ((apply_system_state hR nR s).1.get .AccelerateY = F.fin 0)
    ∧ ((apply_system_state hR nR s).1.get .Torque = F.fin 0)
    ∧ (∀ j ∈ fireGroups.map (fun g => g.2.2),
        (((apply_system_state hR nR s).1.get j).gtZero = false))
    ∧ (((apply_system_state hR nR s).1.get .Explode).gtZero = false) := by
  rw [apply_state_eq hR nR s]
  refine ⟨?_, ?_, ?_, ?_, ?_⟩
  · apply get_of_state_zero
    rcases explodeStep_state_cases _ SysIdx.AccelerateX with h | h
    · rw [h]
      rcases applyFires_state_cases fireGroups _ SysIdx.AccelerateX with h2 | h2
      · rw [h2]; simp [state_set]
      · exact h2
    · exact h
  · apply get_of_state_zero
    rcases explodeStep_state_cases _ SysIdx.AccelerateY with h | h
    · rw [h]
      rcases applyFires_state_cases fireGroups _ SysIdx.AccelerateY with h2 | h2
      · rw [h2]; simp [state_set]
      · exact h2
    · exact h
  · apply get_of_state_zero
    rcases explodeStep_state_cases _ SysIdx.Torque with h | h
    · rw [h]
      rcases applyFires_state_cases fireGroups _ SysIdx.Torque with h2 | h2
      · rw [h2]; simp [state_set]
      · exact h2
    · exact h
  · intro j hj
    rcases explodeStep_state_cases (applyFires fireGroups _).1 j with h | h
    · rw [get_congr _ _ _ h]
      exact applyFires_fire_not_pos fireGroups _ j hj
    · rw [get_of_state_zero _ _ h]; rfl
  · exact explodeStep_not_pos _

/-- A state whose `Fire0` slot holds `-1.0`: `apply_system_state` leaves
it untouched (the fire branch only zeroes a slot that read `> 0.0`). -/
def cexFireState : LocalSystemState :=
  ⟨fun i => if i = SysIdx.Fire0 then F.fin (-1) else F.fin 0⟩

/-- Counterexample to C2 as stated: after `apply_system_state`, the
`Fire0` slot of a state that held `-1.0` still reads `-1.0`, not `0.0`. -/
theorem c2_counterexample :
    (apply_system_state false 0 cexFireState).1.get SysIdx.Fire0 = F.fin (-1)
      ∧ F.fin (-1) ≠ F.fin 0 := by
  constructor
  · decide
  · decide

/-- C2 (amended): after `apply_system_state`, `AccelerateX/Y` and
`Torque` read `0.0`; the `Fire0..Fire3` and `Explode` slots are zeroed
only when they were `> 0.0` (i.e. when the corresponding command was
issued) and in every case read `≤ 0.0` afterwards, so a second
application of the resulting state issues no fire, aim or explode
command, and its accelerate and torque calls carry `0.0` arguments. -/
theorem c2_command_slots_cleared :
    ∀ (hasRadar : Bool) (numRadios : Nat) (s : LocalSystemState)
      (hasRadar2 : Bool) (numRadios2 : Nat),
      ((apply_system_state hasRadar numRadios s).1.get .AccelerateX = F.fin 0
        ∧ (apply_system_state hasRadar numRadios s).1.get .AccelerateY = F.fin 0
        ∧ (apply_system_state hasRadar numRadios s).1.get .Torque = F.fin 0)
      ∧ (((apply_system_state hasRadar numRadios s).1.get .Fire0).gtZero = false
        ∧ ((apply_system_state hasRadar numRadios s).1.get .Fire1).gtZero = false
        ∧ ((apply_system_state hasRadar numRadios s).1.get .Fire2).gtZero = false
        ∧ ((apply_system_state hasRadar numRadios s).1.get .Fire3).gtZero = false
        ∧ ((apply_system_state hasRadar numRadios s).1.get .Explode).gtZero = false)
      ∧ ∀ c ∈ (apply_system_state hasRadar2 numRadios2
            (apply_system_state hasRadar numRadios s).1).2,
          c.dupFree = true := by
  intro hasRadar numRadios s hasRadar2 numRadios2
  obtain ⟨hAX, hAY, hTq, hFires, hExp⟩ := post_apply_state hasRadar numRadios s
  set t := (apply_system_state hasRadar numRadios s).1 with ht
  refine ⟨⟨hAX, hAY, hTq⟩,
    ⟨hFires _ (by decide), hFires _ (by decide), hFires _ (by decide),
      hFires _ (by decide), hExp⟩, ?_⟩
  intro c hc
  have hfire2 : ∀ g ∈ fireGroups,
      ((((t.set .AccelerateX (F.fin 0)).set .AccelerateY (F.fin 0)).set
          .Torque (F.fin 0)).get g.2.2).gtZero = false := by
    intro g hg
    have hst : (((t.set .AccelerateX (F.fin 0)).set .AccelerateY (F.fin 0)).set
        .Torque (F.fin 0)).state g.2.2 = t.state g.2.2 := by
      fin_cases hg <;> simp [state_set]
    rw [get_congr _ t _ hst]
    refine hFires g.2.2 ?_
    fin_cases hg <;> decide
  have hfr2 := applyFires_nil_of_not_pos fireGroups _ hfire2
  have hexp2 : ((((t.set .AccelerateX (F.fin 0)).set .AccelerateY (F.fin 0)).set
      .Torque (F.fin 0)).get .Explode).gtZero = false := by
    have hst : (((t.set .AccelerateX (F.fin 0)).set .AccelerateY (F.fin 0)).set
        .Torque (F.fin 0)).state .Explode = t.state .Explode := by
      simp [state_set]
    rw [get_congr _ t _ hst]
    exact hExp
  have hTq2 : (((t.set .AccelerateX (F.fin 0)).set .AccelerateY (F.fin 0)).get
      .Torque) = F.fin 0 := by
    have hst : ((t.set .AccelerateX (F.fin 0)).set .AccelerateY (F.fin 0)).state
        .Torque = t.state .Torque := by
      simp [state_set]
    rw [get_congr _ t _ hst]
    exact hTq
  simp only [apply_system_state] at hc
  rw [hfr2] at hc
  rw [explodeStep_of_not_pos _ hexp2] at hc
  simp only [List.mem_cons, List.mem_append, List.not_mem_nil, false_or,
    or_false] at hc
  rcases hc with rfl | rfl | ((hc | hc) | hc)
  · simp [SimCmd.dupFree, hAX, hAY]
  · simp [SimCmd.dupFree, hTq2]
  · exact (radarCmds_ok _ _ c hc).2
  · exact (abilityCmds_ok _ c hc).2
  · exact (applyRadios_cmds _ _ c hc).2

/-- Witness for C2 (amended) at the all-zero state, projecting the
accelerate command of the second application. -/
theorem c2_witness :
    (apply_system_state false 0 LocalSystemState.new).1.get SysIdx.AccelerateX = F.fin 0
    ∧ (SimCmd.accelerate (F.fin 0) (F.fin 0)).dupFree = true := by
  have h := c2_command_slots_cleared false 0 LocalSystemState.new false 0
  exact ⟨h.1.1, h.2.2 _ (by decide)⟩

/-!
## Claim C5: debug-lines emission
-/

/-- C5: debug lines are emitted iff the `DebugLinesLength` slot reads
`> 0.0`, the u32-cast length is at most 128, the guest memory read
succeeds, and every coordinate of every line is finite; a reported length
of 129 emits nothing, a reported length of 128 with all-finite
coordinates emits all 128 lines, and a single NaN coordinate anywhere
suppresses the whole batch. -/
theorem c5_debug_lines_bounds :
    ∀ (readVec : Nat → Nat → Option (List Line)) (state : LocalSystemState)
      (ls : List Line),
      (debugLinesEmission readVec state = some ls ↔
        ((state.get .DebugLinesLength).gtZero = true
          ∧ (state.get .DebugLinesLength).toU32 ≤ 128
          ∧ readVec (state.get .DebugLinesPointer).toU32
              (state.get .DebugLinesLength).toU32 = some ls
          ∧ validate_lines ls = true))
      ∧ (state.state .DebugLinesLength = F.fin 129 →
          debugLinesEmission readVec state = none)
      ∧ (state.state .DebugLinesLength = F.fin 128 →
          readVec (state.get .DebugLinesPointer).toU32 128 = some ls →
          validate_lines ls = true → ls.length = 128 →
          debugLinesEmission readVec state = some ls ∧ ls.length = 128)
      ∧ (∀ l ∈ ls, (l.x0.isNan || l.y0.isNan || l.x1.isNan || l.y1.isNan) = true →
          readVec (state.get .DebugLinesPointer).toU32
              (state.get .DebugLinesLength).toU32 = some ls →
          debugLinesEmission readVec state = none) := by
  intro readVec state ls
  have hnanInvalid : ∀ l ∈ ls,
      (l.x0.isNan || l.y0.isNan || l.x1.isNan || l.y1.isNan) = true →
        validate_lines ls = false := by
    intro l hl hnan
    unfold validate_lines validate_floats
    rw [List.all_eq_false]
    refine ⟨l, hl, ?_⟩
    simp only [List.all_cons, List.all_nil, Bool.and_true, Bool.and_eq_true,
      Bool.not_eq_true]
    intro hfin
    rcases l with ⟨x0, y0, x1, y1, color⟩
    obtain ⟨h0, h1, h2, h3⟩ := hfin
    cases x0 <;> cases y0 <;> cases x1 <;> cases y1 <;>
      simp_all [F.isNan, F.isFinite]
  refine ⟨?_, ?_, ?_, ?_⟩
  · unfold debugLinesEmission
    by_cases h1 : (state.get .DebugLinesLength).gtZero = true
    · by_cases h2 : (state.get .DebugLinesLength).toU32 ≤ 128
      · rcases h3 : readVec (state.get .DebugLinesPointer).toU32
            (state.get .DebugLinesLength).toU32 with _ | lines
        · simp only [h1, h2, h3, if_true]
          constructor
          · intro habs; exact Option.noConfusion habs
          · rintro ⟨-, -, habs, -⟩; exact Option.noConfusion habs
        · by_cases h4 : validate_lines lines = true
          · simp only [h1, h2, h3, h4, if_true]
            constructor
            · intro heq
              have hinj : lines = ls := Option.some.inj heq
              subst hinj
              exact ⟨trivial, trivial, rfl, h4⟩
            · rintro ⟨-, -, heq, -⟩
              exact heq
          · simp only [Bool.not_eq_true] at h4
            simp only [h1, h2, h3, h4, if_true, Bool.false_eq_true, if_false]
            constructor
            · intro habs; exact Option.noConfusion habs
            · rintro ⟨-, -, heq, hval⟩
              have hinj : lines = ls := Option.some.inj heq
              rw [hinj, hval] at h4
              exact Bool.noConfusion h4
      · simp only [h1, if_true, h2, if_false]
        constructor
        · intro habs; exact Option.noConfusion habs
        · rintro ⟨-, hle, -, -⟩; exact hle.elim
    · simp only [Bool.not_eq_true] at h1
      simp only [h1, Bool.false_eq_true, if_false]
      constructor
      · intro habs; exact Option.noConfusion habs
      · rintro ⟨hgt, -, -, -⟩
        exact hgt.elim
  · intro h129
    have hget : state.get .DebugLinesLength = F.fin 129 := by
      unfold LocalSystemState.get
      rw [h129]; rfl
    have hgt : (F.fin (129 : ℚ)).gtZero = true := by decide
    have hc : (F.fin (129 : ℚ)).toU32 = 129 := by decide
    unfold debugLinesEmission
    rw [hget]
    simp [hgt, hc]
  · intro h128 hread hval hlen
    have hget : state.get .DebugLinesLength = F.fin 128 := by
      unfold LocalSystemState.get
      rw [h128]; rfl
    have hgt : (F.fin (128 : ℚ)).gtZero = true := by decide
    have hc : (F.fin (128 : ℚ)).toU32 = 128 := by decide
    refine ⟨?_, hlen⟩
    unfold debugLinesEmission
    rw [hget]
    simp only [hgt, hc, le_refl, if_true, hread, hval]
  · intro l hl hnan hread
    have hbad := hnanInvalid l hl hnan
    unfold debugLinesEmission
    by_cases h1 : (state.get .DebugLinesLength).gtZero = true
    · by_cases h2 : (state.get .DebugLinesLength).toU32 ≤ 128
      · simp only [h1, h2, if_true, hread, hbad, Bool.false_eq_true, if_false]
      · simp only [h1, if_true, h2, if_false]
    · simp only [Bool.not_eq_true] at h1
      simp only [h1, Bool.false_eq_true, if_false]

/-- The state whose `DebugLinesLength` slot reads 129, used by the C5
witness. -/
def state129 : LocalSystemState :=
  ⟨fun i => if i = SysIdx.DebugLinesLength then F.fin 129 else F.fin 0⟩

/-- Witness for C5: a reported batch length of 129 emits nothing. -/
theorem c5_witness :
    debugLinesEmission (fun _ n => some (List.replicate n ⟨F.fin 0, F.fin 0, F.fin 0, F.fin 0, 0⟩))
      state129 = none := by
  have h := c5_debug_lines_bounds
    (fun _ n => some (List.replicate n ⟨F.fin 0, F.fin 0, F.fin 0, F.fin 0, 0⟩))
    state129 []
  exact h.2.1 (by decide)

/-!
## Team controller lemmas
-/

theorem lookup_isSome_iff (h : ShipHandle) :
    ∀ (l : List (ShipHandle × ShipController)),
      (lookupShip h l).isSome = true ↔ h ∈ l.map Prod.fst := by
  intro l
  induction l with
  | nil => simp [lookupShip]
  | cons p rest ih =>
    obtain ⟨k, v⟩ := p
    unfold lookupShip
    by_cases hk : k = h
    · subst hk; simp
    · simp only [hk, if_false, List.map_cons, List.mem_cons, ih]
      constructor
      · exact fun hm => Or.inr hm
      · rintro (rfl | hm)
        · exact absurd rfl hk
        · exact hm

theorem tickOne_ext (fails : ShipHandle → Bool)
    (ships1 ships2 : List (ShipHandle × ShipController)) (h : ShipHandle)
    (hiff : (h ∈ ships1.map Prod.fst) ↔ (h ∈ ships2.map Prod.fst)) :
    tickOne fails ships1 h = tickOne fails ships2 h := by
  unfold tickOne
  rcases h1 : lookupShip h ships1 with _ | c1 <;>
    rcases h2 : lookupShip h ships2 with _ | c2
  · rfl
  · exfalso
    have hm : h ∈ ships2.map Prod.fst := (lookup_isSome_iff h ships2).1 (by simp [h2])
    have : (lookupShip h ships1).isSome = true :=
      (lookup_isSome_iff h ships1).2 (hiff.2 hm)
    simp [h1] at this
  · exfalso
    have hm : h ∈ ships1.map Prod.fst := (lookup_isSome_iff h ships1).1 (by simp [h1])
    have : (lookupShip h ships2).isSome = true :=
      (lookup_isSome_iff h ships2).2 (hiff.1 hm)
    simp [h2] at this
  · rfl

theorem flatMap_congr {α β : Type} (l : List α) (f g : α → List β)
    (hfg : ∀ x ∈ l, f x = g x) : l.flatMap f = l.flatMap g := by
  induction l with
  | nil => rfl
  | cons a rest ih =>
    simp only [List.flatMap_cons]
    rw [hfg a (by simp), ih fun x hx => hfg x (List.mem_cons_of_mem _ hx)]

theorem sortedKeys_mem (ships : List (ShipHandle × ShipController)) (h : ShipHandle) :
    h ∈ (ships.map Prod.fst).insertionSort handleLE ↔ h ∈ ships.map Prod.fst :=
  (List.perm_insertionSort handleLE _).mem_iff

theorem guestCalls_append (a b : List TeamEvent) :
    guestCalls (a ++ b) = guestCalls a ++ guestCalls b := by
  unfold guestCalls
  exact List.filterMap_append a b _

theorem guestCalls_flatMap (fails : ShipHandle → Bool)
    (ships : List (ShipHandle × ShipController)) :
    ∀ (hs : List ShipHandle), (∀ h ∈ hs, h ∈ ships.map Prod.fst) →
      guestCalls (hs.flatMap (tickOne fails ships)) = hs.map ShipHandle.index := by
  intro hs
  induction hs with
  | nil => intro _; rfl
  | cons h rest ih =>
    intro hall
    simp only [List.flatMap_cons, List.map_cons]
    rw [guestCalls_append]
    rw [ih fun x hx => hall x (List.mem_cons_of_mem _ hx)]
    have hsome : (lookupShip h ships).isSome = true :=
      (lookup_isSome_iff h ships).2 (hall h (by simp))
    unfold tickOne
    rcases hl : lookupShip h ships with _ | c
    · simp [hl] at hsome
    · by_cases hf : fails h = true
      · simp [hf, guestCalls]
      · simp only [Bool.not_eq_true] at hf
        simp [hf, guestCalls]

theorem teamTick_chunk (fails : ShipHandle → Bool)
    (ships : List (ShipHandle × ShipController)) (h : ShipHandle)
    (hm : h ∈ ships.map Prod.fst) :
    ∃ pre post, teamTick fails ships = pre ++ tickOne fails ships h ++ post := by
  have hmem : h ∈ (ships.map Prod.fst).insertionSort handleLE :=
    (sortedKeys_mem ships h).2 hm
  unfold teamTick
  generalize (ships.map Prod.fst).insertionSort handleLE = hs at hmem
  induction hs with
  | nil => simp at hmem
  | cons a rest ih =>
    rcases List.mem_cons.1 hmem with rfl | hmem2
    · exact ⟨[], rest.flatMap (tickOne fails ships), by simp [List.flatMap_cons]⟩
    · obtain ⟨pre, post, heq⟩ := ih hmem2
      exact ⟨tickOne fails ships a ++ pre, post, by
        simp only [List.flatMap_cons, heq, List.append_assoc]⟩

theorem mem_teamTick_of_mem_chunk (fails : ShipHandle → Bool)
    (ships : List (ShipHandle × ShipController)) (h : ShipHandle)
    (hm : h ∈ ships.map Prod.fst) (e : TeamEvent)
    (he : e ∈ tickOne fails ships h) : e ∈ teamTick fails ships := by
  unfold teamTick
  exact List.mem_flatMap.2 ⟨h, (sortedKeys_mem ships h).2 hm, he⟩

theorem tickOne_of_mem (fails : ShipHandle → Bool)
    (ships : List (ShipHandle × ShipController)) (h : ShipHandle)
    (hm : h ∈ ships.map Prod.fst) :
    tickOne fails ships h =
      TeamEvent.ctrlTick h.index ::
        (if fails h then [TeamEvent.logWarn, TeamEvent.explodeShip h.index] else []) := by
  unfold tickOne
  rcases hl : lookupShip h ships with _ | c
  · have := (lookup_isSome_iff h ships).2 hm
    simp [hl] at this
  · rfl

/-!
## Claims C3, C4, C8
-/

/-- A dummy controller for concrete team examples. -/
def dummyCtrl (h : ShipHandle) : ShipController := ⟨h, LocalSystemState.new⟩

/-- A team whose handles have indices 5, 1, 3, inserted in that order. -/
def exampleShips : List (ShipHandle × ShipController) :=
  [(⟨5, 0⟩, dummyCtrl ⟨5, 0⟩), (⟨1, 0⟩, dummyCtrl ⟨1, 0⟩), (⟨3, 0⟩, dummyCtrl ⟨3, 0⟩)]

/-- `exampleShips` with its first two entries swapped (a different hashmap
iteration order of the same handle multiset). -/
def exampleShipsSwapped : List (ShipHandle × ShipController) :=
  [(⟨1, 0⟩, dummyCtrl ⟨1, 0⟩), (⟨5, 0⟩, dummyCtrl ⟨5, 0⟩), (⟨3, 0⟩, dummyCtrl ⟨3, 0⟩)]

/-- C3: `TeamController::tick` sorts the handles, so (i) the trace is
invariant under permutation of the underlying map entries (it is a pure
function of the handle multiset), (ii) with pairwise-distinct raw indices
the guest-call sequence is strictly ascending in the raw handle index, and
(iii) a team with handle indices {5, 1, 3} ticked twice produces the
guest-call sequence [1, 3, 5, 1, 3, 5]. -/
theorem c3_deterministic_ordering :
    ∀ (fails : ShipHandle → Bool) (ships1 ships2 : List (ShipHandle × ShipController)),
      (ships1.Perm ships2 → teamTick fails ships1 = teamTick fails ships2)
      ∧ ((ships1.map fun p => p.1.index).Nodup →
          List.Sorted (· < ·) (guestCalls (teamTick fails ships1)))
      ∧ guestCalls (teamTick (fun _ => false) exampleShips ++
            teamTick (fun _ => false) exampleShips) = [1, 3, 5, 1, 3, 5] := by
  intro fails ships1 ships2
  refine ⟨?_, ?_, by decide⟩
  · intro hp
    have hkeys : (ships1.map Prod.fst).Perm (ships2.map Prod.fst) := hp.map _
    have hsorted : (ships1.map Prod.fst).insertionSort handleLE =
        (ships2.map Prod.fst).insertionSort handleLE := by
      exact @List.eq_of_perm_of_sorted ShipHandle handleLE _
        ((ships1.map Prod.fst).insertionSort handleLE)
        ((ships2.map Prod.fst).insertionSort handleLE)
        (((List.perm_insertionSort handleLE _).trans hkeys).trans
          (List.perm_insertionSort handleLE _).symm)
        (List.sorted_insertionSort handleLE _)
        (List.sorted_insertionSort handleLE _)
    unfold teamTick
    rw [hsorted]
    exact flatMap_congr _ _ _ fun h _ =>
      tickOne_ext fails ships1 ships2 h hkeys.mem_iff
  · intro hnodup
    have hcalls : guestCalls (teamTick fails ships1) =
        ((ships1.map Prod.fst).insertionSort handleLE).map ShipHandle.index := by
      unfold teamTick
      exact guestCalls_flatMap fails ships1 _ fun h hh => (sortedKeys_mem _ h).1 hh
    rw [hcalls]
    have hsorted : List.Sorted handleLE ((ships1.map Prod.fst).insertionSort handleLE) :=
      List.sorted_insertionSort handleLE _
    have hnodup2 : (((ships1.map Prod.fst).insertionSort handleLE).map
        ShipHandle.index).Nodup := by
      have hp : (((ships1.map Prod.fst).insertionSort handleLE).map
          ShipHandle.index).Perm ((ships1.map Prod.fst).map ShipHandle.index) :=
        (List.perm_insertionSort handleLE _).map _
      rw [hp.nodup_iff, List.map_map]
      exact hnodup
    have hne : List.Pairwise (fun a b : ShipHandle => a.index ≠ b.index)
        ((ships1.map Prod.fst).insertionSort handleLE) :=
      List.pairwise_map.1 hnodup2
    have hcomb := hsorted.and hne
    unfold List.Sorted
    rw [List.pairwise_map]
    refine hcomb.imp ?_
    intro a b hab
    obtain ⟨hle, hneq⟩ := hab
    unfold handleLE at hle
    omega

/-- Witness for C3: the two concrete insertion orders of the {5, 1, 3}
team produce the same trace, and the guest-call sequence of one tick is
strictly ascending. -/
theorem c3_witness :
    teamTick (fun _ => false) exampleShips = teamTick (fun _ => false) exampleShipsSwapped
    ∧ List.Sorted (· < ·) (guestCalls (teamTick (fun _ => false) exampleShips)) := by
  have h := c3_deterministic_ordering (fun _ => false) exampleShips exampleShipsSwapped
  exact ⟨h.1 (List.Perm.swap _ _ _), h.2.1 (by decide)⟩

/-- C4: when a ship's tick fails, `TeamController::tick` logs the error
and explodes exactly that ship, and still ticks every ship of the team;
no error is propagated out (the model's trace function is total, mirroring
the `()` return of the Rust method). -/
theorem c4_error_recovery :
    ∀ (fails : ShipHandle → Bool) (ships : List (ShipHandle × ShipController))
      (h : ShipHandle), h ∈ ships.map Prod.fst → fails h = true →
      (∃ pre post, teamTick fails ships =
          pre ++ [TeamEvent.ctrlTick h.index, TeamEvent.logWarn,
            TeamEvent.explodeShip h.index] ++ post)
      ∧ (∀ h2 ∈ ships.map Prod.fst, TeamEvent.ctrlTick h2.index ∈ teamTick fails ships)
      ∧ (∀ i, TeamEvent.explodeShip i ∈ teamTick fails ships →
          ∃ h2 ∈ ships.map Prod.fst, h2.index = i ∧ fails h2 = true) := by
  intro fails ships h hm hf
  refine ⟨?_, ?_, ?_⟩
  · obtain ⟨pre, post, heq⟩ := teamTick_chunk fails ships h hm
    refine ⟨pre, post, ?_⟩
    rw [heq, tickOne_of_mem fails ships h hm, hf]
    simp
  · intro h2 hm2
    apply mem_teamTick_of_mem_chunk fails ships h2 hm2
    rw [tickOne_of_mem fails ships h2 hm2]
    simp
  · intro i hi
    obtain ⟨h2, hh2, he⟩ := List.mem_flatMap.1 hi
    have hm2 : h2 ∈ ships.map Prod.fst := (sortedKeys_mem ships h2).1 hh2
    rw [tickOne_of_mem fails ships h2 hm2] at he
    rcases List.mem_cons.1 he with habs | he2
    · exact absurd habs (by simp)
    · by_cases hf2 : fails h2 = true
      · rw [hf2] at he2
        simp only [if_true, List.mem_cons, List.not_mem_nil, or_false] at he2
        rcases he2 with habs | he3
        · exact absurd habs (by simp)
        · have : h2.index = i := by
            have := TeamEvent.explodeShip.injEq i h2.index ▸ he3
            simp only [TeamEvent.explodeShip.injEq] at he3
            omega
          exact ⟨h2, hm2, this, hf2⟩
      · simp only [Bool.not_eq_true] at hf2
        rw [hf2] at he2
        simp at he2

/-- The failure predicate used by the C4 and C8 witnesses: the guest
traps exactly for the ship with raw index 1. -/
def failsIndexOne (h : ShipHandle) : Bool := decide (h.index = 1)

/-- Witness for C4 on the concrete {5, 1, 3} team where ship 1 fails:
ship 3 is still ticked. -/
theorem c4_witness :
    TeamEvent.ctrlTick 3 ∈ teamTick failsIndexOne exampleShips := by
  have h := c4_error_recovery failsIndexOne exampleShips ⟨1, 0⟩ (by decide) (by decide)
  exact h.2.1 ⟨3, 0⟩ (by decide)

/-- C8: a ship whose tick fails is exploded during that tick; once the
simulation-side destruction (spec-modelled, see `simDestroyExploded`) has
removed it from the controller map, subsequent calls to
`TeamController::tick` never invoke its controller, while every other
ship of the team is still ticked. -/
theorem c8_exploded_not_reticked :
    ∀ (fails : ShipHandle → Bool) (ships : List (ShipHandle × ShipController))
      (h : ShipHandle), h ∈ ships.map Prod.fst → fails h = true →
      (ships.map fun p => p.1.index).Nodup →
      (TeamEvent.explodeShip h.index ∈ teamTick fails ships)
      ∧ (TeamEvent.ctrlTick h.index ∉ teamTick fails (simDestroyExploded ships h))
      ∧ (∀ h2 ∈ ships.map Prod.fst, h2 ≠ h →
          TeamEvent.ctrlTick h2.index ∈ teamTick fails (simDestroyExploded ships h)) := by
  intro fails ships h hm hf hnodup
  have hinj : ∀ a ∈ ships.map Prod.fst, ∀ b ∈ ships.map Prod.fst,
      a.index = b.index → a = b := by
    intro a ha b hb hab
    have hn2 : ((ships.map Prod.fst).map ShipHandle.index).Nodup := by
      rw [List.map_map]; exact hnodup
    exact List.inj_on_of_nodup_map hn2 ha hb hab
  have hkeysRemoved : ∀ h2, h2 ∈ (simDestroyExploded ships h).map Prod.fst ↔
      (h2 ∈ ships.map Prod.fst ∧ h2 ≠ h) := by
    intro h2
    unfold simDestroyExploded remove_ship
    constructor
    · intro hmem
      obtain ⟨p, hp, rfl⟩ := List.mem_map.1 hmem
      obtain ⟨hp2, hp3⟩ := List.mem_filter.1 hp
      refine ⟨List.mem_map.2 ⟨p, hp2, rfl⟩, ?_⟩
      simpa using hp3
    · rintro ⟨hmem, hne⟩
      obtain ⟨p, hp, rfl⟩ := List.mem_map.1 hmem
      exact List.mem_map.2 ⟨p, List.mem_filter.2 ⟨hp, by simpa using hne⟩, rfl⟩
  refine ⟨?_, ?_, ?_⟩
  · apply mem_teamTick_of_mem_chunk fails ships h hm
    rw [tickOne_of_mem fails ships h hm, hf]
    simp
  · intro habs
    obtain ⟨h2, hh2, he⟩ := List.mem_flatMap.1 habs
    have hm2 : h2 ∈ (simDestroyExploded ships h).map Prod.fst :=
      (List.perm_insertionSort handleLE _).mem_iff.1 hh2
    obtain ⟨hm2s, hne⟩ := (hkeysRemoved h2).1 hm2
    have hsome : (lookupShip h2 (simDestroyExploded ships h)).isSome = true :=
      (lookup_isSome_iff h2 _).2 hm2
    unfold tickOne at he
    rcases hl : lookupShip h2 (simDestroyExploded ships h) with _ | c
    · simp [hl] at hsome
    · rw [hl] at he
      rcases List.mem_cons.1 he with hhead | htail
      · have hidx : h2.index = h.index := by
          simp only [TeamEvent.ctrlTick.injEq] at hhead
          omega
        exact hne (hinj h2 hm2s h hm hidx)
      · by_cases hf2 : fails h2 = true
        · rw [hf2] at htail
          simp at htail
        · simp only [Bool.not_eq_true] at hf2
          rw [hf2] at htail
          simp at htail
  · intro h2 hm2 hne
    have hm2r : h2 ∈ (simDestroyExploded ships h).map Prod.fst :=
      (hkeysRemoved h2).2 ⟨hm2, hne⟩
    apply mem_teamTick_of_mem_chunk fails _ h2 hm2r
    rw [tickOne_of_mem fails _ h2 hm2r]
    simp

/-- Witness for C8 on the concrete {5, 1, 3} team where ship 1 fails:
ship 1 is exploded, is not ticked after removal, and ship 5 still is. -/
theorem c8_witness :
    TeamEvent.explodeShip 1 ∈ teamTick failsIndexOne exampleShips
    ∧ TeamEvent.ctrlTick 1 ∉
        teamTick failsIndexOne (simDestroyExploded exampleShips ⟨1, 0⟩)
    ∧ TeamEvent.ctrlTick 5 ∈
        teamTick failsIndexOne (simDestroyExploded exampleShips ⟨1, 0⟩) := by
  have h := c8_exploded_not_reticked failsIndexOne exampleShips ⟨1, 0⟩
    (by decide) (by decide) (by decide)
  exact ⟨h.1, h.2.1, h.2.2 ⟨5, 0⟩ (by decide) (by decide)⟩

/-!
## Claims C6 and C7: the sanitizer
-/

instance : DecidableEq (Except CheckError Unit) := fun x y =>
  match x, y with
  | .ok (), .ok () => isTrue rfl
  | .error a, .error b =>
    if h : a = b then isTrue (by rw [h])
    else isFalse fun hh => h (by injection hh)
  | .ok _, .error _ => isFalse fun hh => Except.noConfusion hh
  | .error _, .ok _ => isFalse fun hh => Except.noConfusion hh

theorem strAt_length (cs : List Char) (j : Nat) (w : List Char)
    (hw : 0 < w.length) (h : strAt cs j w = true) : j + w.length ≤ cs.length := by
  unfold strAt at h
  rw [decide_eq_true_eq] at h
  have hlen : ((cs.drop j).take w.length).length = w.length := by rw [h]
  rw [List.length_take, List.length_drop] at hlen
  rw [min_eq_left_iff] at hlen
  omega

theorem badToken_check (cs : List Char) (i : Nat) (hi : i < cs.length + 1)
    (hb : badTokenAt cs i = true) : check cs = .error .badToken := by
  have hbad : hasBadToken cs = true := by
    unfold hasBadToken
    rw [List.any_eq_true]
    exact ⟨i, List.mem_range.2 hi, hb⟩
  unfold check
  simp only [hbad, if_true]

/-- C7: the sanitizer rejects any ASCII text containing the word
`static` followed by a word boundary, unless the character immediately
preceding it is a single quote; `static X: u32 = 0;` is rejected, the
lifetime form `&'static str` is accepted, and `staticfoo` (no trailing
boundary) is accepted. -/
theorem c7_static_except_lifetime :
    (∀ (cs : List Char), allAscii cs = true →
      (∃ j, strAt cs j "static".toList = true ∧ noWordAt cs (j + 6) = true ∧
          (j = 0 ∨ cs[j - 1]? ≠ some squote)) →
      check cs = .error .badToken)
    ∧ check "static X: u32 = 0;".toList = .error .badToken
    ∧ check ("let _x: &".toList ++ [squote] ++ "static str".toList) = .ok ()
    ∧ check "staticfoo".toList = .ok () := by
  refine ⟨?_, by decide, by decide, by decide⟩
  rintro cs _ ⟨j, hword, hbound, hpre⟩
  have hlen : j + 6 ≤ cs.length := by
    have := strAt_length cs j "static".toList (by decide) hword
    simpa using this
  by_cases hj : j = 0
  · subst hj
    refine badToken_check cs 0 (by omega) ?_
    unfold badTokenAt
    simp only [Bool.or_eq_true]
    refine Or.inr ?_
    rw [Bool.and_eq_true, Bool.and_eq_true]
    exact ⟨⟨by decide, hword⟩, hbound⟩
  · have hj1 : 1 ≤ j := by omega
    have hpre2 : cs[j - 1]? ≠ some squote := by
      rcases hpre with h0 | h2
      · exact absurd h0 hj
      · exact h2
    refine badToken_check cs (j - 1) (by omega) ?_
    unfold badTokenAt
    simp only [Bool.or_eq_true]
    refine Or.inl (Or.inr ?_)
    have hlt : j - 1 < cs.length := by omega
    have hsome : (cs[j - 1]?).isSome = true := by
      rw [List.getElem?_eq_getElem hlt]
      rfl
    have h1 : j - 1 + 1 = j := by omega
    have h7 : j - 1 + 7 = j + 6 := by omega
    rw [Bool.and_eq_true, Bool.and_eq_true, Bool.and_eq_true, h1, h7]
    refine ⟨⟨⟨hsome, ?_⟩, hword⟩, hbound⟩
    rw [decide_eq_true_eq]
    exact hpre2

/-- Witness for C7: the occurrence of `static` at position 0 of
`static X: u32 = 0;` makes the sanitizer reject. -/
theorem c7_witness :
    check "static X: u32 = 0;".toList = .error .badToken :=
  c7_static_except_lifetime.1 "static X: u32 = 0;".toList (by decide)
    ⟨0, by decide, by decide, Or.inl rfl⟩

/-- Counterexample to C6 as stated: the attribute `#[xtest]` has first
token `xtest`, which is not in the allow-list, yet `check` accepts the
text (the allow-regex does an unanchored substring search and finds
`test` inside `xtest`). -/
theorem c6_counterexample :
    check "#[xtest]".toList = Except.ok ()
    ∧ (attrScan "#[xtest]".toList).map (fun p => specFirstToken p.2)
        = ["xtest".toList]
    ∧ "xtest".toList ∉ allowedTokens := by decide

theorem findSomeBad_none_iff (l : List (List Char × List Char)) :
    (l.findSome? fun p => if allowedSomewhere p.2 then none else some p.1) = none ↔
      (l.all fun p => allowedSomewhere p.2) = true := by
  induction l with
  | nil => simp
  | cons p rest ih =>
    rw [List.findSome?_cons, List.all_cons, Bool.and_eq_true]
    by_cases hp : allowedSomewhere p.2 = true
    · simp [hp, ih]
    · simp only [Bool.not_eq_true] at hp
      simp [hp]

theorem take_of_takeWhile (p : Char → Bool) :
    ∀ (cs t : List Char), cs.takeWhile p = t → cs.take t.length = t := by
  intro cs
  induction cs with
  | nil =>
    intro t h
    simp only [List.takeWhile_nil] at h
    subst h; rfl
  | cons c rest ih =>
    intro t h
    rw [List.takeWhile_cons] at h
    by_cases hc : p c = true
    · simp only [hc, if_true] at h
      subst h
      simp only [List.length_cons, List.take_succ_cons, List.cons.injEq, true_and]
      exact ih _ rfl
    · simp only [Bool.not_eq_true] at hc
      simp only [hc, Bool.false_eq_true, if_false] at h
      subst h; rfl

theorem after_takeWhile (p : Char → Bool) :
    ∀ (cs t : List Char), cs.takeWhile p = t →
      ∀ c, cs[t.length]? = some c → p c = false := by
  intro cs
  induction cs with
  | nil =>
    intro t h c hc
    simp at hc
  | cons c0 rest ih =>
    intro t h c hc
    rw [List.takeWhile_cons] at h
    by_cases hc0 : p c0 = true
    · simp only [hc0, if_true] at h
      subst h
      simp only [List.length_cons, List.getElem?_cons_succ] at hc
      exact ih _ rfl c hc
    · simp only [Bool.not_eq_true] at hc0
      simp only [hc0, Bool.false_eq_true, if_false] at h
      subst h
      simp only [List.length_nil, List.getElem?_cons_zero, Option.some.injEq] at hc
      subst hc
      exact hc0

theorem ws_not_word (c : Char) (h : c.isWhitespace = true) :
    isWordChar c = false := by
  have hdef : (c = ' ' || c = '\t' || c = '\r' || c = '\n') = true := h
  simp only [Bool.or_eq_true, decide_eq_true_eq] at hdef
  rcases hdef with ((h1 | h1) | h1) | h1 <;> subst h1 <;> decide

theorem firstToken_allowed (cap : List Char)
    (ht : specFirstToken cap ∈ allowedTokens) : allowedSomewhere cap = true := by
  have hzero : ∀ w : List Char, cap.takeWhile
        (fun c => !(c.isWhitespace || c = '[' || c = ']')) = w →
      strAt cap 0 w = true := by
    intro w hw
    unfold strAt
    rw [decide_eq_true_eq, List.drop_zero]
    exact take_of_takeWhile _ cap w hw
  have hafter : ∀ w : List Char, cap.takeWhile
        (fun c => !(c.isWhitespace || c = '[' || c = ']')) = w →
      noWordAt cap w.length = true := by
    intro w hw
    unfold noWordAt wordCharAt
    rcases hc : cap[w.length]? with _ | c
    · rfl
    · have hp : (!(c.isWhitespace || decide (c = '[') || decide (c = ']'))) = false :=
        after_takeWhile _ cap w hw c hc
      cases hX : (c.isWhitespace || decide (c = '[') || decide (c = ']')) with
      | false =>
        exfalso
        rw [hX] at hp
        exact Bool.noConfusion hp
      | true =>
        simp only [Bool.or_eq_true, decide_eq_true_eq] at hX
        rcases hX with (hws | hbr) | hbr
        · simp [ws_not_word c hws]
        · subst hbr; decide
        · subst hbr; decide
  unfold specFirstToken at ht
  simp only [allowedTokens, List.map_cons, List.map_nil, List.mem_cons,
    List.not_mem_nil, or_false] at ht
  have hmk : ∀ i, i < cap.length + 1 → allowedAt cap i = true →
      allowedSomewhere cap = true := by
    intro i hi ha
    unfold allowedSomewhere
    rw [List.any_eq_true]
    exact ⟨i, List.mem_range.2 hi, ha⟩
  rcases ht with h | h | h | h | h | h | h
  all_goals refine hmk 0 (by omega) ?_
  all_goals unfold allowedAt
  all_goals simp only [Bool.or_eq_true, Bool.and_eq_true]
  · exact Or.inl (Or.inl (Or.inl (Or.inl (Or.inl (Or.inl (hzero _ h))))))
  · exact Or.inl (Or.inl (Or.inl (Or.inl (Or.inl (Or.inr (hzero _ h))))))
  · exact Or.inl (Or.inl (Or.inl (Or.inl (Or.inr (hzero _ h)))))
  · exact Or.inl (Or.inl (Or.inl (Or.inr (hzero _ h))))
  · exact Or.inl (Or.inl (Or.inr (hzero _ h)))
  · exact Or.inl (Or.inr (hzero _ h))
  · refine Or.inr ⟨hzero _ h, ?_⟩
    have := hafter _ h
    simpa using this

/-- C6 (amended): for ASCII source text (where the embedding's `\b` in
`default\b` agrees with the Unicode-aware Rust regex), given no
base-token rejection, an attribute is permitted iff its captured
fragment (the maximal run of characters after `#[`/`#![` containing no
space and no square bracket) contains `derive`, `repr`, `inline`,
`cfg(test)`, `test` or `must_use` anywhere, or `default` followed by a
word boundary — an unanchored substring search, not a first-token
comparison; in particular every attribute whose first token is in the
allow-list is permitted, but so are attributes like `#[xtest]` whose
first token is not in the list. -/
theorem c6_attr_allowlist :
    ∀ (cs : List Char), allAscii cs = true → hasBadToken cs = false →
      ((check cs = .ok ()) ↔
        ((attrScan cs).all fun p => allowedSomewhere p.2) = true)
      ∧ (((attrScan cs).all fun p =>
            decide (specFirstToken p.2 ∈ allowedTokens)) = true →
          check cs = .ok ()) := by
  rintro cs - hbt
  have hcheck : check cs = (match firstBadAttr cs with
      | some m0 => Except.error (CheckError.badAttr m0)
      | none => Except.ok ()) := by
    unfold check
    simp only [hbt, Bool.false_eq_true, if_false]
  have hiff : (check cs = .ok ()) ↔
      ((attrScan cs).all fun p => allowedSomewhere p.2) = true := by
    rw [hcheck]
    rcases hfb : firstBadAttr cs with _ | m0
    · simp only [hfb]
      constructor
      · intro _
        exact (findSomeBad_none_iff (attrScan cs)).1 hfb
      · intro _; trivial
    · simp only [hfb]
      constructor
      · intro habs; simp at habs
      · intro hall
        have hnone : firstBadAttr cs = none :=
          (findSomeBad_none_iff (attrScan cs)).2 hall
        rw [hfb] at hnone
        exact Option.noConfusion hnone
  refine ⟨hiff, ?_⟩
  intro hall
  rw [hiff]
  rw [List.all_eq_true] at hall ⊢
  intro p hp
  have := hall p hp
  rw [decide_eq_true_eq] at this
  exact firstToken_allowed p.2 this

/-- Witness for C6 (amended): `#[test]` is permitted (its first token is
in the allow-list). -/
theorem c6_witness : check "#[test]".toList = Except.ok () :=
  (c6_attr_allowlist "#[test]".toList (by decide) (by decide)).2 (by decide)

/-!
## Claim C9: SystemState marshalling failures
-/

/-- Counterexample to C9 as stated: with a one-page (65536-byte) guest
memory and a `SYSTEM_STATE` global pointing at the end of memory, the
slice fails and `read_system_state` / `write_system_state` panic (via
`.expect`) — the failure branch is reachable and does not produce an
error value. -/
theorem c9_counterexample :
    read_system_state 65536 65536 112 = MarshalOutcome.panicked
    ∧ write_system_state 65536 65536 112 = MarshalOutcome.panicked
    ∧ MarshalOutcome.panicked ≠ MarshalOutcome.ok := by decide

/-- C9 (amended): a failure to read or write the SystemState doubles is
never surfaced as an error value: `read_system_state` and
`write_system_state` succeed exactly when the slice
`[ptr, ptr + 8 * Size)` lies within guest memory and panic otherwise,
and never produce `MarshalOutcome.err`. -/
theorem c9_marshal_panics :
    ∀ (memBytes ptr slots : Nat),
      (read_system_state memBytes ptr slots = .ok ↔ ptr + 8 * slots ≤ memBytes)
      ∧ (read_system_state memBytes ptr slots = .panicked ↔
          ¬(ptr + 8 * slots ≤ memBytes))
      ∧ write_system_state memBytes ptr slots = read_system_state memBytes ptr slots
      ∧ (read_system_state memBytes ptr slots = .ok ∨
          read_system_state memBytes ptr slots = .panicked) := by
  intro memBytes ptr slots
  unfold read_system_state write_system_state sliceWithin
  by_cases h : ptr + 8 * slots ≤ memBytes
  · simp [h]
  · simp [h]

/-!
## Claim C10: add_ship on an existing handle
-/

theorem map_fst_replace (h : ShipHandle) (c : ShipController) :
    ∀ (l : List (ShipHandle × ShipController)),
      (l.map fun p => if p.1 = h then (h, c) else p).map Prod.fst =
        l.map Prod.fst := by
  intro l
  induction l with
  | nil => rfl
  | cons p rest ih =>
    obtain ⟨k, v⟩ := p
    simp only [List.map_cons, ih]
    by_cases hk : k = h
    · subst hk; simp
    · simp [hk]

theorem insert_keys (h : ShipHandle) (c : ShipController)
    (ships : List (ShipHandle × ShipController))
    (hs : (lookupShip h ships).isSome = true) :
    (insertShip h c ships).map Prod.fst = ships.map Prod.fst := by
  unfold insertShip
  simp only [hs, if_true]
  exact map_fst_replace h c ships

theorem lookup_replace (h : ShipHandle) (c : ShipController) :
    ∀ (l : List (ShipHandle × ShipController)),
      (lookupShip h l).isSome = true →
      lookupShip h (l.map fun p => if p.1 = h then (h, c) else p) = some c := by
  intro l
  induction l with
  | nil => intro hs; simp [lookupShip] at hs
  | cons p rest ih =>
    intro hs
    obtain ⟨k, v⟩ := p
    rw [List.map_cons]
    by_cases hk : k = h
    · subst hk
      rw [if_pos rfl]
      unfold lookupShip
      rw [if_pos rfl]
    · rw [if_neg (show ¬((k, v).1 = h) from hk)]
      unfold lookupShip
      rw [if_neg hk]
      apply ih
      unfold lookupShip at hs
      rw [if_neg hk] at hs
      exact hs

theorem lookup_insert_self (h : ShipHandle) (c : ShipController)
    (ships : List (ShipHandle × ShipController))
    (hs : (lookupShip h ships).isSome = true) :
    lookupShip h (insertShip h c ships) = some c := by
  unfold insertShip
  simp only [hs, if_true]
  exact lookup_replace h c ships hs

/-- C10: calling `add_ship` with a handle already present in the team
map returns `Ok(())` and silently replaces the existing controller with a
freshly initialized one — the `Seed` slot recomputed from the sim seed
and handle, the four radar slots recomputed when a radar is present, and
every other slot reset to `0.0` — while the key set (hence the map size
and key uniqueness) is unchanged. -/
theorem c10_add_ship_replaces :
    ∀ (hash : Nat → ShipHandle → Nat) (simSeed : Nat) (radar : Option RadarInit)
      (ships : List (ShipHandle × ShipController)) (h : ShipHandle),
      (lookupShip h ships).isSome = true →
      (ships.map Prod.fst).Nodup →
      ((add_ship hash simSeed radar ships h).2 = Except.ok ())
      ∧ ((add_ship hash simSeed radar ships h).1.map Prod.fst = ships.map Prod.fst)
      ∧ ((add_ship hash simSeed radar ships h).1.length = ships.length)
      ∧ ((add_ship hash simSeed radar ships h).1.map Prod.fst).Nodup
      ∧ (∃ c, lookupShip h (add_ship hash simSeed radar ships h).1 = some c
          ∧ c.handle = h
          ∧ c.state.state .Seed = F.fin (((hash simSeed h) &&& 0xffffff : Nat) : ℚ)
          ∧ (∀ r, radar = some r →
              c.state.state .RadarHeading = r.heading
              ∧ c.state.state .RadarWidth = r.width
              ∧ c.state.state .RadarMinDistance = r.min_distance
              ∧ c.state.state .RadarMaxDistance = r.max_distance)
          ∧ (radar = none → ∀ i, i ≠ SysIdx.Seed → c.state.state i = F.fin 0)
          ∧ (∀ i, i ≠ SysIdx.Seed → i ≠ SysIdx.RadarHeading →
              i ≠ SysIdx.RadarWidth → i ≠ SysIdx.RadarMinDistance →
              i ≠ SysIdx.RadarMaxDistance → c.state.state i = F.fin 0)) := by
  intro hash simSeed radar ships h hs hnodup
  have hkeys : (add_ship hash simSeed radar ships h).1.map Prod.fst =
      ships.map Prod.fst := by
    simp only [add_ship]
    exact insert_keys h _ ships hs
  refine ⟨rfl, hkeys, ?_, ?_, ?_⟩
  · have h1 : ((add_ship hash simSeed radar ships h).1.map Prod.fst).length =
        (ships.map Prod.fst).length := by rw [hkeys]
    simpa using h1
  · rw [hkeys]; exact hnodup
  · refine ⟨⟨h, freshShipState hash simSeed radar h⟩, ?_, rfl, ?_, ?_, ?_, ?_⟩
    · simp only [add_ship]
      exact lookup_insert_self h _ ships hs
    · rcases radar with _ | r <;>
        simp [freshShipState, state_set, LocalSystemState.new]
    · intro r hr
      subst hr
      refine ⟨?_, ?_, ?_, ?_⟩ <;> simp [freshShipState, state_set]
    · intro hr i hi
      subst hr
      simp only [freshShipState, state_set, LocalSystemState.new]
      rw [if_neg hi]
    · intro i h1 h2 h3 h4 h5
      rcases radar with _ | r
      · simp only [freshShipState, state_set, LocalSystemState.new]
        rw [if_neg h1]
      · simp only [freshShipState, state_set, LocalSystemState.new]
        rw [if_neg h5, if_neg h4, if_neg h3, if_neg h2, if_neg h1]

/-- Witness for C10: re-adding handle (1, 0) to a one-ship map succeeds
and keeps the map size at 1. -/
theorem c10_witness :
    (add_ship (fun s hh => s + hh.index) 7
        (some ⟨F.fin 1, F.fin 2, F.fin 3, F.fin 4⟩)
        [(⟨1, 0⟩, dummyCtrl ⟨1, 0⟩)] ⟨1, 0⟩).2 = Except.ok ()
    ∧ (add_ship (fun s hh => s + hh.index) 7
        (some ⟨F.fin 1, F.fin 2, F.fin 3, F.fin 4⟩)
        [(⟨1, 0⟩, dummyCtrl ⟨1, 0⟩)] ⟨1, 0⟩).1.length = 1 := by
  have h := c10_add_ship_replaces (fun s hh => s + hh.index) 7
    (some ⟨F.fin 1, F.fin 2, F.fin 3, F.fin 4⟩)
    [(⟨1, 0⟩, dummyCtrl ⟨1, 0⟩)] ⟨1, 0⟩ (by decide) (by decide)
  exact ⟨h.1, h.2.2.1⟩

end Oort
